import Mathlib

/-!
Shallow embedding of the filesystem DirServer/StoreServer of this repository
(package filesystem: common.go, store.go and the pack helper file), which
serves a local directory tree as a read-only, signed namespace.

External collaborators that are not part of the repository (the path parser,
the access-policy parser and evaluator, the signing factotum, the byte-level
stat/read primitives) are modelled abstractly as fields of a `World` value or
of the server configuration; definitions taken from them are marked
"Modelled from the spec".  Everything else is translated directly from the
Go source, one definition per source function.
-/

namespace Filesystem

/-- Attribute bits of a directory entry (AttrNone, AttrDirectory and the
AttrIncomplete flag set by MarkIncomplete). -/
structure Attr where
  isDir : Bool
  incomplete : Bool
deriving DecidableEq, Repr

def attrNone : Attr := ⟨false, false⟩

def attrDirectory : Attr := ⟨true, false⟩

/-- An (R, S) signature pair, the two big integers returned by FileSign. -/
structure Sig where
  r : Nat
  s : Nat
deriving DecidableEq, Repr

/-- Canonical fields signed for an entry: the arguments of
DirEntryHash(SignedName, Link, Attr, Packing, Time, dkey, sum), where dkey and
sum are fixed all-zero buffers in the source (store.go, signature step). -/
structure SignInput where
  signedName : String
  link : String
  attr : Attr
  packing : Nat
  time : Int
deriving DecidableEq, Repr

/-- One content block of an entry (upspin.DirBlock): store endpoint,
reference string, offset and size. -/
structure DirBlock where
  endpoint : String
  reference : String
  offset : Int
  size : Int
deriving DecidableEq, Repr

/-- Metadata record for one namespace object (upspin.DirEntry), with the
fields the source populates. -/
structure DirEntry where
  name : String
  signedName : String
  packing : Nat
  time : Int
  attr : Attr
  sequence : Int
  writer : String
  blocks : List DirBlock
  packdata : List Nat
deriving DecidableEq, Repr

/-- Result of an os.Stat call: success with file info, a does-not-exist
error, or any other I/O error (the source distinguishes the two with
os.IsNotExist). -/
structure FileInfo where
  isDir : Bool
  isRegular : Bool
  mode : Nat
  modTime : Int
  size : Int
deriving DecidableEq, Repr

inductive StatRes where
  | ok (info : FileInfo)
  | noEnt
  | ioFail
deriving DecidableEq, Repr

/-- Error values the operations return, one constructor per distinct error
produced by the source (errors.E kinds and sentinel errors). -/
inductive Err where
  | notDialed
  | readOnly
  | notInRoot
  | statNoEnt (p : String)
  | statFail (p : String)
  | notRegular (p : String)
  | openFail (p : String)
  | isDirErr (p : String)
  | permission (p : String)
  | permissionDenied (p : String)
  | priv
  | privAt (p : String)
  | invalidPath
  | mismatchedUser (u : String)
  | readFail (p : String)
  | signFail
  | nilUser
  | parseFail (p : String)
deriving DecidableEq, Repr

/-- Access rights of the access package (access.Read, access.List,
access.AnyRight and the others). -/
inductive AccessRight where
  | read
  | write
  | list
  | create
  | delete
  | anyRight
deriving DecidableEq, Repr

/-- Modelled from the spec: the policy-parsing/evaluation collaborator's
parsed policy, consulted as "does principal U have right R on path P".
The file-reading argument the source passes for group lookups is abstracted
away inside the function. -/
structure Policy where
  can : String → AccessRight → String → Except Err Bool

/-- The per-caller configuration installed by Dial: the calling principal's
user name and its factotum's FileSign operation (which may fail). -/
structure UserCfg where
  userName : String
  sign : SignInput → Option Sig

/-- The entry cache: local path to cached DirEntry.  The source uses a
bounded LRU (capacity 10000); capacity and recency bookkeeping are not
modelled, only the get/remove/add map behaviour the claims are about. -/
abbrev Cache := List (String × DirEntry)

def cacheGet : Cache → String → Option DirEntry
  | [], _ => none
  | (k, v) :: rest, key => if k = key then some v else cacheGet rest key

def cacheRemove : Cache → String → Cache
  | [], _ => []
  | (k, v) :: rest, key =>
    if k = key then cacheRemove rest key else (k, v) :: cacheRemove rest key

def cacheAdd (c : Cache) (key : String) (v : DirEntry) : Cache :=
  (key, v) :: cacheRemove c key

/-- The world outside the server: the local file system (stat results, file
contents, open success, directory children in lexical order) and the external
access-policy parser. -/
structure World where
  fs : String → StatRes
  contents : String → Option (List Nat)
  openOk : String → Bool
  children : String → List String
  parseAccess : String → List Nat → Except Err Policy

/-- The Server struct of common.go: owner configuration (user name, store
endpoint), root directory, default access policy, entry cache, and the
per-request user configuration set by Dial (nil before Dial). -/
structure Server where
  userName : String
  storeEndpoint : String
  root : String
  defaultAccess : Policy
  dirEntries : Cache
  user : Option UserCfg

/-- Dial copies the server and installs the caller's configuration; root,
default policy and (in the source, by pointer) the cache stay shared. -/
def dial (s : Server) (u : UserCfg) : Server :=
  { s with user := some u }

/-- The calling principal's name, s.user.UserName() in the source.  The
source would dereference a nil configuration when not dialed; the operations
are only reached after Dial. -/
def callerName (s : Server) : String :=
  match s.user with
  | some u => u.userName
  | none => ""

/-! String helpers mirroring the Go standard-library calls the source makes.
They work on the character list of a string so that all definitions reduce
by computation. -/

/-- strings.Split on a single-character separator (always returns at least
one group, the groups between occurrences of the separator). -/
def splitOnChar (c : Char) : List Char → List (List Char)
  | [] => [[]]
  | x :: xs =>
    match splitOnChar c xs with
    | [] => [[]]
    | g :: gs => if x = c then [] :: g :: gs else (x :: g) :: gs

/-- strings.Join with a one-string separator. -/
def strJoin (sep : String) : List String → String
  | [] => ""
  | [x] => x
  | x :: xs => x ++ sep ++ strJoin sep xs

/-- Character-level joining with a one-character separator, the image of
strJoin on character lists (proof support for the round-trip lemma). -/
def joinChar (c : Char) : List (List Char) → List Char
  | [] => []
  | [g] => g
  | g :: gs => g ++ c :: joinChar c gs

/-- strings.Split of a string on a single-character separator. -/
def splitStr (c : Char) (s : String) : List String :=
  (splitOnChar c s.data).map (fun l => ⟨l⟩)

def strContains (s : String) (c : Char) : Bool :=
  s.data.contains c

/-- strings.HasPrefix. -/
def strHasPrefix (pre s : String) : Bool :=
  pre.data.isPrefixOf s.data

/-- Byte slicing file[len(root):] of the source, at character granularity
(paths are ASCII in the model). -/
def strDropChars (s : String) (n : Nat) : String :=
  ⟨s.data.drop n⟩

/-! Signature marshalling (pdMarshal and the packutil/math-big encodings it
calls). -/

/-- Big-endian base-256 digits of a natural number, empty for zero: the
Bytes method of a math/big integer.  Structural recursion on a fuel equal
to the number itself so that it reduces by computation. -/
def natBytesAux : Nat → Nat → List Nat
  | 0, _ => []
  | _ + 1, 0 => []
  | fuel + 1, n + 1 => natBytesAux fuel ((n + 1) / 256) ++ [(n + 1) % 256]

def natBytes (n : Nat) : List Nat := natBytesAux n n

/-- Unsigned LEB128 of binary.PutUvarint, fuel-structured likewise. -/
def varintAux : Nat → Nat → List Nat
  | 0, n => [n % 128]
  | fuel + 1, n => if n < 128 then [n] else (n % 128 + 128) :: varintAux fuel (n / 128)

def varint (n : Nat) : List Nat := varintAux (n + 1) n

/-- packutil.PutBytes: a varint length prefix followed by the bytes. -/
def putBytes (b : List Nat) : List Nat :=
  varint b.length ++ b

/-- pdMarshal of the source: encodes the primary signature and the optional
rotation signature (replaced by the zero signature when absent) into the
packdata buffer; the buffer allocation and truncation of the source are, as
a pure value, the concatenation of the four encoded components.  The source
function never fails. -/
def pdMarshal (sig : Sig) (sig2 : Option Sig) : List Nat :=
  let s2 := sig2.getD ⟨0, 0⟩
  putBytes (natBytes sig.r) ++ putBytes (natBytes sig.s) ++
    putBytes (natBytes s2.r) ++ putBytes (natBytes s2.s)

/-- The packing tag stored in every entry (upspin.PlainPack, a library
constant; its numeric value is irrelevant to every claim). -/
def plainPack : Nat := 1

/-! Path handling. -/

/-- A parsed logical path: the owner user name and the path elements
(path.Parsed of the path library). -/
structure Parsed where
  user : String
  elems : List String
deriving DecidableEq, Repr

/-- parsed.Path() as a string: "user@host/elem/elem"; for the root it ends
with the slash, "user@host/". -/
def Parsed.pathString (p : Parsed) : String :=
  p.user ++ "/" ++ strJoin "/" p.elems

/-- Modelled from the spec: the external path parser (the path library, not
in src).  A logical path is a user element containing an at-sign followed by
slash-separated elements; empty elements are dropped by cleaning, and a
malformed path (no at-sign in the first element) is an Invalid error. -/
def parsePath (name : String) : Except Err Parsed :=
  match splitStr '/' name with
  | [] => .error .invalidPath
  | user :: rest =>
    if strContains user '@' = false then .error .invalidPath
    else .ok ⟨user, rest.filter (fun e => e ≠ "")⟩

/-- filepath.Join(root, relative elements): the root itself for no elements,
otherwise root/elem/elem. -/
def joinRel (root : String) : List String → String
  | [] => root
  | es => root ++ "/" ++ strJoin "/" es

/-- upspinPathFromLocal of the source: the owner's user name concatenated
with the local path minus the root prefix. -/
def upspinPathFromLocal (s : Server) (local_ : String) : String :=
  s.userName ++ strDropChars local_ s.root.data.length

/-- Modelled from the spec: MarkIncomplete of the entry library, "mark the
entry completeness=incomplete (content reference and any content-revealing
fields suppressed)": sets the incomplete attribute and clears the blocks and
the signature data. -/
def markIncomplete (e : DirEntry) : DirEntry :=
  { e with attr := { e.attr with incomplete := true }, blocks := [], packdata := [] }

/-! whichAccess (common.go): scan the parsed path's prefixes from the full
path upward for a directory holding a regular Access file. -/

/-- The local directory candidate examined at loop index i: the path with
its last i elements dropped, mapped under the root. -/
def waDir (s : Server) (parsed : Parsed) (i : Nat) : String :=
  joinRel s.root (parsed.elems.take (parsed.elems.length - i))

/-- The logical path of the Access file candidate at loop index i
(path.Join of the dropped parsed path and "Access"). -/
def waLogical (parsed : Parsed) (i : Nat) : String :=
  parsed.user ++ "/" ++ strJoin "/" (parsed.elems.take (parsed.elems.length - i) ++ ["Access"])

deriving instance DecidableEq for Except

/-- Outcome of one iteration of the whichAccess loop: continue to the next
shorter prefix, or finish with a result. -/
inductive WaStep where
  | cont
  | done (r : Except Err String)
deriving DecidableEq, Repr

/-- One iteration of the whichAccess loop body at index i: stat the candidate
directory (any stat failure is fatal), skip non-directories, stat the Access
file inside it (absence continues, other stat failures are fatal), require it
to be a regular file, require it to be openable, and return its logical
path. -/
def waStep (s : Server) (w : World) (parsed : Parsed) (i : Nat) : WaStep :=
  match w.fs (waDir s parsed i) with
  | .noEnt => .done (.error (.statNoEnt (waDir s parsed i)))
  | .ioFail => .done (.error (.statFail (waDir s parsed i)))
  | .ok fi =>
    if fi.isDir then
      match w.fs (waDir s parsed i ++ "/Access") with
      | .noEnt => .cont
      | .ioFail => .done (.error (.statFail (waDir s parsed i ++ "/Access")))
      | .ok fi2 =>
        if fi2.isRegular = false then .done (.error (.notRegular (waLogical parsed i)))
        else if w.openOk (waDir s parsed i ++ "/Access") then .done (.ok (waLogical parsed i))
        else .done (.error (.openFail (waDir s parsed i ++ "/Access")))
    else .cont

/-- The whichAccess loop over a list of indices: first non-continuing
iteration decides; an exhausted loop returns the empty reference without
error. -/
def waLoop (s : Server) (w : World) (parsed : Parsed) : List Nat → Except Err String
  | [] => .ok ""
  | i :: rest =>
    match waStep s w parsed i with
    | .cont => waLoop s w parsed rest
    | .done r => r

/-- whichAccess of the source: loop index i from 0 through NElem inclusive. -/
def whichAccess (s : Server) (w : World) (parsed : Parsed) : Except Err String :=
  waLoop s w parsed (List.range (parsed.elems.length + 1))

/-- readFile of the source: parse the logical name, map it under the root,
stat it, refuse directories, refuse files whose permission bits deny
other-read (mode & 4 == 0), and read the contents. -/
def readFile (s : Server) (w : World) (name : String) : Except Err (List Nat) :=
  match parsePath name with
  | .error e => .error e
  | .ok parsed =>
    let localName := joinRel s.root parsed.elems
    match w.fs localName with
    | .noEnt => .error (.statNoEnt localName)
    | .ioFail => .error (.statFail localName)
    | .ok info =>
      if info.isDir then .error (.isDirErr name)
      else if info.mode &&& 4 = 0 then .error (.permission name)
      else
        match w.contents localName with
        | some data => .ok data
        | none => .error (.readFail localName)

/-- can of the source: resolve the governing Access file; with none, evaluate
the default policy, otherwise read and parse the Access file and evaluate the
parsed policy, in each case for the calling principal at the parsed path. -/
def can (s : Server) (w : World) (right : AccessRight) (parsed : Parsed) : Except Err Bool :=
  match whichAccess s w parsed with
  | .error e => .error e
  | .ok afn =>
    if afn ≠ "" then
      match readFile s w afn with
      | .error e => .error e
      | .ok data =>
        match w.parseAccess afn data with
        | .error e => .error e
        | .ok a => a.can (callerName s) right parsed.pathString
    else
      s.defaultAccess.can (callerName s) right parsed.pathString

/-! entry (store.go): synthesize the DirEntry for a local file or directory,
consulting and maintaining the cache for regular files. -/

/-- The build-and-cache tail of entry for a regular file: compute the logical
name, the offset (entry.Size() of the block-less entry, which the library
evaluates to 0 — the spec's "offset = size-so-far, 0 for single-block
files"), the single content block, the signature over the canonical fields
(with the dialed user's factotum), the marshalled packdata, and add the
finished entry to the cache. -/
def entryBuildFile (s : Server) (_w : World) (file : String) (info : FileInfo)
    (c : Cache) : Except Err DirEntry × Cache :=
  let name := upspinPathFromLocal s file
  let offs : Int := 0
  let e1 : DirEntry :=
    { name := name
      signedName := name
      packing := plainPack
      time := info.modTime
      attr := attrNone
      sequence := 0
      writer := s.userName
      blocks := [{ endpoint := s.storeEndpoint
                   reference := strDropChars file s.root.data.length
                   offset := offs
                   size := info.size }]
      packdata := [] }
  match s.user with
  | none => (.error .nilUser, c)
  | some u =>
    match u.sign { signedName := e1.signedName, link := "", attr := e1.attr,
                   packing := e1.packing, time := e1.time } with
    | none => (.error .signFail, c)
    | some sig =>
      let e2 := { e1 with packdata := pdMarshal sig none }
      (.ok e2, cacheAdd c file e2)

/-- entry of the source.  Requires the argument to begin with the root
(internal "not in root" error otherwise); stats it; for a directory builds a
bare unsigned entry without touching the cache and returns at once; for a
regular file first consults the cache — a slot whose Time equals the fresh
modification time is returned as-is, a stale slot is removed — and otherwise
rebuilds via entryBuildFile.  The cache after the call is returned alongside
the result. -/
def entry (s : Server) (w : World) (file : String) : Except Err DirEntry × Cache :=
  if strHasPrefix s.root file then
    match w.fs file with
    | .noEnt => (.error (.statNoEnt file), s.dirEntries)
    | .ioFail => (.error (.statFail file), s.dirEntries)
    | .ok info =>
      if info.isDir then
        (.ok { name := upspinPathFromLocal s file
               signedName := upspinPathFromLocal s file
               packing := plainPack
               time := info.modTime
               attr := attrDirectory
               sequence := 0
               writer := s.userName
               blocks := []
               packdata := [] }, s.dirEntries)
      else
        match cacheGet s.dirEntries file with
        | some e =>
          if e.time = info.modTime then (.ok e, s.dirEntries)
          else entryBuildFile s w file info (cacheRemove s.dirEntries file)
        | none => entryBuildFile s w file info s.dirEntries
  else (.error .notInRoot, s.dirEntries)

/-- Lookup of the DirServer: parse, verify the owner segment, require the
list right, and synthesize the entry of the mapped local path. -/
def dirLookup (s : Server) (w : World) (pathName : String) : Except Err DirEntry × Cache :=
  match parsePath pathName with
  | .error e => (.error e, s.dirEntries)
  | .ok parsed =>
    if parsed.user ≠ s.userName then (.error (.mismatchedUser parsed.user), s.dirEntries)
    else
      match can s w .list parsed with
      | .error e => (.error e, s.dirEntries)
      | .ok false => (.error .priv, s.dirEntries)
      | .ok true => entry s w (joinRel s.root parsed.elems)

/-- The walk body of listDir over the immediate children of the directory
(filepath.Walk with SkipDir on child directories, so no recursion): a stat
error on a child aborts; children that are neither directories nor regular
files are skipped; each remaining child's entry is synthesized, the read
right is evaluated for its logical path, and on denial the entry is marked
incomplete — which, in the source, mutates the object the cache slot of a
regular file aliases, so the slot changes with it. -/
def walkChildren (s : Server) (w : World) :
    List String → Cache → Except Err (List DirEntry) × Cache
  | [], c => (.ok [], c)
  | child :: rest, c =>
    match w.fs child with
    | .noEnt => (.error (.statNoEnt child), c)
    | .ioFail => (.error (.statFail child), c)
    | .ok info =>
      if !info.isDir && !info.isRegular then walkChildren s w rest c
      else
        match entry { s with dirEntries := c } w child with
        | (.error e, c1) => (.error e, c1)
        | (.ok e, c1) =>
          match parsePath (upspinPathFromLocal s child) with
          | .error e2 => (.error e2, c1)
          | .ok p =>
            match can s w .read p with
            | .error e3 => (.error e3, c1)
            | .ok true =>
              match walkChildren s w rest c1 with
              | (.ok es, c2) => (.ok (e :: es), c2)
              | r => r
            | .ok false =>
              let em := markIncomplete e
              let c1m := if info.isDir then c1 else cacheAdd c1 child em
              match walkChildren s w rest c1m with
              | (.ok es, c2) => (.ok (em :: es), c2)
              | r => r

/-- listDir of the source: parse, require the list right on the directory
(privacy error on denial, before any child is examined), then walk the
immediate children.  The source returns the partially accumulated entries
alongside a walk error; callers discard them, and the model returns the
error alone. -/
def listDir (s : Server) (w : World) (name : String) : Except Err (List DirEntry) × Cache :=
  match parsePath name with
  | .error e => (.error e, s.dirEntries)
  | .ok parsed =>
    match can s w .list parsed with
    | .error e => (.error e, s.dirEntries)
    | .ok false => (.error (.privAt name), s.dirEntries)
    | .ok true =>
      let dir := joinRel s.root parsed.elems
      match w.fs dir with
      | .noEnt => (.error (.statNoEnt dir), s.dirEntries)
      | .ioFail => (.error (.statFail dir), s.dirEntries)
      | .ok _ => walkChildren s w (w.children dir) s.dirEntries

/-- WhichAccess of the DirServer: parse, verify the owner segment, require
some right, resolve the governing Access file, and synthesize the entry of
the resolved logical path string (the source passes that logical path, not a
root-prefixed local path, to entry). -/
def dirWhichAccess (s : Server) (w : World) (pathName : String) : Except Err DirEntry × Cache :=
  match parsePath pathName with
  | .error e => (.error e, s.dirEntries)
  | .ok parsed =>
    if parsed.user ≠ s.userName then (.error (.mismatchedUser parsed.user), s.dirEntries)
    else
      match can s w .anyRight parsed with
      | .error e => (.error e, s.dirEntries)
      | .ok false => (.error (.permissionDenied ""), s.dirEntries)
      | .ok true =>
        match whichAccess s w parsed with
        | .error e => (.error e, s.dirEntries)
        | .ok accessPath => entry s w accessPath

/-- Refdata returned by a successful Get (reference and volatility; the
one-minute duration is irrelevant to every claim). -/
structure Refdata where
  reference : String
  volatile : Bool
deriving DecidableEq, Repr

/-- The composite-reference decoding inside Get: split on hyphens, rejoin all
but the last token as the relative path, take the last token as the offset. -/
def decodeRef (ref : String) : String × String :=
  let parts := splitStr '-' ref
  (strJoin "-" parts.dropLast, parts.getLastD "")

/-- Get of the StoreServer: require a dialed user, decode the composite
reference, build the owner-rooted logical path, parse it, require the read
right, and read the local file segment named by the logical path with the
offset suffix re-attached. -/
def storeGet (s : Server) (w : World) (ref : String) : Except Err (List Nat × Refdata) :=
  match s.user with
  | none => .error .notDialed
  | some _ =>
    match decodeRef ref with
    | (ref2, offset) =>
      let pathName := s.userName ++ ref2
      match parsePath pathName with
      | .error e => .error e
      | .ok parsed =>
        match can s w .read parsed with
        | .error e => .error e
        | .ok false => .error (.permissionDenied parsed.pathString)
        | .ok true =>
          match readFile s w (pathName ++ "-" ++ offset) with
          | .error e => .error e
          | .ok data => .ok (data, { reference := ref2, volatile := false })

/-- Put of the StoreServer: unconditionally the read-only error; no server
state is touched. -/
def storePut (_s : Server) (_ciphertext : List Nat) : Except Err Refdata :=
  .error .readOnly

/-- Delete of the StoreServer: unconditionally the read-only error. -/
def storeDelete (_s : Server) (_ref : String) : Except Err Unit :=
  .error .readOnly

/-- Put of the DirServer: unconditionally the read-only error. -/
def dirPut (_s : Server) (_e : DirEntry) : Except Err DirEntry :=
  .error .readOnly

/-- Delete of the DirServer: unconditionally the read-only error. -/
def dirDelete (_s : Server) (_pathName : String) : Except Err DirEntry :=
  .error .readOnly

/-! Specification-side predicate for one level of listing, used to state the
listing claim: every immediate child that is a directory or a regular file
contributes exactly one entry, in order; other children are skipped; and a
child on which the caller is denied the read right has its entry marked
incomplete with blocks and signature data cleared. -/

/-- A child the walk keeps: its stat succeeded and it is a directory or a
regular file. -/
def eligible (w : World) (child : String) : Bool :=
  match w.fs child with
  | .ok i => i.isDir || i.isRegular
  | _ => false

def listingMatches (s : Server) (w : World) : List String → List DirEntry → Prop
  | [], es => es = []
  | ch :: rest, es =>
    match eligible w ch with
    | false => listingMatches s w rest es
    | true =>
      ∃ e es', es = e :: es' ∧
        (∀ p, parsePath (upspinPathFromLocal s ch) = .ok p →
          can s w .read p = .ok false →
          e.attr.incomplete = true ∧ e.blocks = [] ∧ e.packdata = []) ∧
        listingMatches s w rest es'

/-! Concrete worlds and servers used by the witnesses and counterexamples. -/

/-- A policy permitting everything. -/
def allowAll : Policy := ⟨fun _ _ _ => .ok true⟩

/-- A policy denying the read right to alice and the list right to carol,
permitting everything else. -/
def listPolicy : Policy :=
  ⟨fun u r _ => .ok (decide (¬(u = "alice@e.com" ∧ r = AccessRight.read) ∧
      ¬(u = "carol@e.com" ∧ r = AccessRight.list)))⟩

def uAlice : UserCfg := ⟨"alice@e.com", fun _ => some ⟨1, 2⟩⟩

def uBob : UserCfg := ⟨"bob@e.com", fun _ => some ⟨3, 4⟩⟩

def uCarol : UserCfg := ⟨"carol@e.com", fun _ => some ⟨5, 6⟩⟩

/-- A caller whose factotum fails to sign. -/
def uNoSign : UserCfg := ⟨"owner@e.com", fun _ => none⟩

def dirInfo : FileInfo := ⟨true, false, 0o755, 10, 0⟩

def regInfo (t : Int) (sz : Int) (mode : Nat) : FileInfo := ⟨false, true, mode, t, sz⟩

/-- A finite stat table: listed paths stat as given, all others do not
exist. -/
def fsOf (l : List (String × FileInfo)) : String → StatRes := fun p =>
  match l.find? (fun kv => kv.1 == p) with
  | some kv => .ok kv.2
  | none => .noEnt

def serverBase : Server :=
  { userName := "u@x", storeEndpoint := "ep", root := "/r",
    defaultAccess := allowAll, dirEntries := [], user := none }

/-- Root with a regular file f (modification time 100) and a directory d. -/
def worldBasic : World :=
  { fs := fsOf [("/r", dirInfo), ("/r/f", regInfo 100 5 0o644), ("/r/d", dirInfo)]
    contents := fun _ => none
    openOk := fun _ => true
    children := fun _ => []
    parseAccess := fun _ _ => .ok allowAll }

/-- A cached entry for /r/f whose version matches the live modification
time. -/
def entryHit : DirEntry :=
  { name := "u@x/f", signedName := "u@x/f", packing := plainPack, time := 100,
    attr := attrNone, sequence := 0, writer := "u@x", blocks := [], packdata := [7, 7] }

/-- A cached entry for /r/f whose version is stale. -/
def entryStale : DirEntry :=
  { name := "u@x/f", signedName := "u@x/f", packing := plainPack, time := 50,
    attr := attrNone, sequence := 0, writer := "u@x", blocks := [], packdata := [7, 7] }

def serverHit : Server :=
  { serverBase with dirEntries := [("/r/f", entryHit)], user := some uAlice }

/-- A dialed server with a stale cached slot for /r/f and a failing
factotum. -/
def serverStale : Server :=
  { serverBase with dirEntries := [("/r/f", entryStale)], user := some uNoSign }

/-- The uncached directory entry that the synthesis of /r/d yields. -/
def dirEntryOfD : DirEntry :=
  { name := "u@x/d", signedName := "u@x/d", packing := plainPack, time := 10,
    attr := attrDirectory, sequence := 0, writer := "u@x", blocks := [], packdata := [] }

/-- World for the Get permission scenario: the segment file /r/f-0 exists but
denies other-read. -/
def worldGet : World :=
  { fs := fsOf [("/r", dirInfo), ("/r/f", regInfo 100 5 0o644), ("/r/f-0", regInfo 100 5 0o600)]
    contents := fun _ => some [1, 2, 3]
    openOk := fun _ => true
    children := fun _ => []
    parseAccess := fun _ _ => .ok allowAll }

/-- World for the composite-reference scenario: a logical file whose relative
path itself contains a hyphen, with its offset-0 segment readable. -/
def worldRef : World :=
  { fs := fsOf [("/r", dirInfo), ("/r/a-b", regInfo 100 3 0o644), ("/r/a-b-7", regInfo 100 3 0o644)]
    contents := fun p => if p = "/r/a-b-7" then some [104, 105, 33] else none
    openOk := fun _ => true
    children := fun _ => []
    parseAccess := fun _ _ => .ok allowAll }

def serverDialed : Server := dial serverBase uAlice

/-- World for the access-resolution scenario: /r/a holds a regular Access
file. -/
def worldAcc : World :=
  { fs := fsOf [("/r", dirInfo), ("/r/a", dirInfo), ("/r/a/Access", regInfo 100 2 0o644)]
    contents := fun _ => none
    openOk := fun _ => true
    children := fun _ => []
    parseAccess := fun _ _ => .ok allowAll }

/-- World for the listing scenarios: directory /r/d with a single regular
child /r/d/f. -/
def worldList : World :=
  { fs := fsOf [("/r", dirInfo), ("/r/d", dirInfo), ("/r/d/f", regInfo 100 5 0o644)]
    contents := fun _ => none
    openOk := fun _ => true
    children := fun p => if p = "/r/d" then ["/r/d/f"] else []
    parseAccess := fun _ _ => .ok allowAll }

def serverList : Server := { serverBase with defaultAccess := listPolicy }

def serverAlice : Server := dial serverList uAlice

def serverBob : Server := dial serverList uBob

def serverCarol : Server := dial serverList uCarol

/-- The entry for /r/d/f after a read-denied caller's listing has marked it
incomplete: blocks and signature data are gone. -/
def entryFIncomplete : DirEntry :=
  { name := "u@x/d/f", signedName := "u@x/d/f", packing := plainPack, time := 100,
    attr := ⟨false, true⟩, sequence := 0, writer := "u@x", blocks := [], packdata := [] }

/-- The entry for /r/d/f as a fresh synthesis by bob's handle builds it:
complete, with its content block and signature data. -/
def entryFComplete : DirEntry :=
  { name := "u@x/d/f", signedName := "u@x/d/f", packing := plainPack, time := 100,
    attr := attrNone, sequence := 0, writer := "u@x",
    blocks := [{ endpoint := "ep", reference := "/d/f", offset := 0, size := 5 }],
    packdata := pdMarshal ⟨3, 4⟩ none }

/-! Helper lemmas about the cache map. -/

theorem cacheGet_add_self (c : Cache) (k : String) (v : DirEntry) :
    cacheGet (cacheAdd c k v) k = some v := by
  simp [cacheAdd, cacheGet]

theorem cacheGet_remove (c : Cache) (key k : String) :
    cacheGet (cacheRemove c key) k = if k = key then none else cacheGet c k := by
  induction c with
  | nil => simp [cacheRemove, cacheGet]
  | cons kv rest ih =>
    obtain ⟨a, v⟩ := kv
    by_cases hak : a = key
    · subst hak
      have hrem : cacheRemove ((a, v) :: rest) a = cacheRemove rest a := by
        simp [cacheRemove]
      rw [hrem, ih]
      by_cases hka : k = a
      · simp [hka]
      · have hak2 : ¬a = k := fun h => hka h.symm
        simp [hka, cacheGet, hak2]
    · simp only [cacheRemove, if_neg hak, cacheGet, ih]
      by_cases hka : a = k
      · subst hka
        simp [hak]
      · simp [hka]

/-! Helper lemmas about the whichAccess loop. -/

theorem waLoop_all_cont (s : Server) (w : World) (parsed : Parsed) :
    ∀ l, (∀ i ∈ l, waStep s w parsed i = .cont) → waLoop s w parsed l = .ok "" := by
  intro l
  induction l with
  | nil => intro; rfl
  | cons a t ih =>
    intro h
    simp only [waLoop]
    rw [h a (List.mem_cons_self a t)]
    exact ih fun i hi => h i (List.mem_cons_of_mem a hi)

theorem waLoop_first_done (s : Server) (w : World) (parsed : Parsed) (j : Nat)
    (r : Except Err String) :
    ∀ l1 l2, (∀ i ∈ l1, waStep s w parsed i = .cont) → waStep s w parsed j = .done r →
      waLoop s w parsed (l1 ++ j :: l2) = r := by
  intro l1
  induction l1 with
  | nil =>
    intro l2 _ hj
    simp only [List.nil_append, waLoop]
    rw [hj]
  | cons a t ih =>
    intro l2 h hj
    simp only [List.cons_append, waLoop]
    rw [h a (List.mem_cons_self a t)]
    exact ih l2 (fun i hi => h i (List.mem_cons_of_mem a hi)) hj

theorem range_decomp (j n : Nat) (h : j < n) :
    ∃ l2, List.range n = List.range j ++ j :: l2 := by
  induction n with
  | zero => omega
  | succ m ih =>
    rcases Nat.lt_succ_iff_lt_or_eq.mp h with hlt | heq
    · obtain ⟨l2, hl⟩ := ih hlt
      exact ⟨l2 ++ [m], by rw [List.range_succ, hl]; simp⟩
    · subst heq
      exact ⟨[], by rw [List.range_succ]⟩

/-! Operations other than the walk never read the children enumeration, so
replacing it leaves them unchanged. -/

theorem waStep_children (s : Server) (parsed : Parsed) (i : Nat) (w : World)
    (ch : String → List String) :
    waStep s { w with children := ch } parsed i = waStep s w parsed i := rfl

theorem waLoop_children (s : Server) (w : World) (parsed : Parsed) (ch : String → List String) :
    ∀ l, waLoop s { w with children := ch } parsed l = waLoop s w parsed l := by
  intro l
  induction l with
  | nil => rfl
  | cons a t ih =>
    simp only [waLoop]
    rw [waStep_children]
    cases hws : waStep s w parsed a with
    | cont => exact ih
    | done r => rfl

theorem whichAccess_children (s : Server) (w : World) (parsed : Parsed)
    (ch : String → List String) :
    whichAccess s { w with children := ch } parsed = whichAccess s w parsed :=
  waLoop_children s w parsed ch (List.range (parsed.elems.length + 1))

theorem can_children (s : Server) (w : World) (right : AccessRight) (parsed : Parsed)
    (ch : String → List String) :
    can s { w with children := ch } right parsed = can s w right parsed := by
  unfold can
  rw [whichAccess_children]
  rfl

/-! Helper lemmas about hyphen splitting and joining, for the composite
reference round trip. -/

theorem splitOnChar_ne_nil (c : Char) : ∀ l, splitOnChar c l ≠ [] := by
  intro l
  cases l with
  | nil => simp [splitOnChar]
  | cons x xs =>
    simp only [splitOnChar]
    cases splitOnChar c xs with
    | nil => simp
    | cons g gs => by_cases h : x = c <;> simp [h]

theorem splitOnChar_no_sep (c : Char) : ∀ d, c ∉ d → splitOnChar c d = [d] := by
  intro d hd
  induction d with
  | nil => rfl
  | cons x xs ih =>
    rw [List.mem_cons] at hd
    push_neg at hd
    have hxc : ¬x = c := fun h => hd.1 h.symm
    simp [splitOnChar, ih hd.2, hxc]

theorem splitOnChar_append (c : Char) (d : List Char) (hd : c ∉ d) :
    ∀ p, splitOnChar c (p ++ c :: d) = splitOnChar c p ++ [d] := by
  intro p
  induction p with
  | nil => simp [splitOnChar, splitOnChar_no_sep c d hd]
  | cons x xs ih =>
    have hne := splitOnChar_ne_nil c xs
    cases hsp : splitOnChar c xs with
    | nil => exact absurd hsp hne
    | cons g gs =>
      rw [hsp] at ih
      show splitOnChar c (x :: (xs ++ c :: d)) = splitOnChar c (x :: xs) ++ [d]
      simp only [splitOnChar]
      rw [ih, hsp]
      by_cases hxc : x = c <;> simp [hxc]

theorem strJoin_map_mk (c : Char) (sep : String) (hsep : sep.data = [c]) :
    ∀ gs : List (List Char),
      strJoin sep (gs.map (fun g => (⟨g⟩ : String))) = ⟨joinChar c gs⟩ := by
  intro gs
  induction gs with
  | nil => rfl
  | cons g gs2 ih =>
    cases gs2 with
    | nil => rfl
    | cons g2 gs3 =>
      obtain ⟨sd⟩ := sep
      have hsd : sd = [c] := hsep
      subst hsd
      simp only [List.map, strJoin, joinChar] at ih ⊢
      rw [ih]
      show String.mk ((g ++ [c]) ++ joinChar c (g2 :: gs3)) =
        String.mk (g ++ c :: joinChar c (g2 :: gs3))
      rw [List.append_assoc]
      rfl

/-- The build-and-cache tail of entry either fails leaving the cache
argument untouched, or succeeds with an entry carrying the fresh
modification time, added to the cache under the file's path. -/
theorem entryBuildFile_cases (s : Server) (w : World) (file : String) (info : FileInfo)
    (c : Cache) :
    (∃ err, entryBuildFile s w file info c = (.error err, c)) ∨
    (∃ e, entryBuildFile s w file info c = (.ok e, cacheAdd c file e) ∧
      e.time = info.modTime) := by
  simp only [entryBuildFile]
  split
  · exact .inl ⟨.nilUser, rfl⟩
  · split
    · exact .inl ⟨.signFail, rfl⟩
    · exact .inr ⟨_, rfl, rfl⟩

/-- readFile refuses a non-directory whose permission bits deny other-read
with a permission error. -/
theorem readFile_not_world_readable (s : Server) (w : World) (name : String)
    (q : Parsed) (info : FileInfo)
    (hq : parsePath name = .ok q)
    (hfs : w.fs (joinRel s.root q.elems) = .ok info)
    (hdir : info.isDir = false)
    (hmode : info.mode &&& 4 = 0) :
    readFile s w name = .error (.permission name) := by
  simp [readFile, hq, hfs, hdir, hmode]

/-- A successful walk of a child list satisfies the listing
specification. -/
theorem walkChildren_matches (s : Server) (w : World) :
    ∀ (cs : List String) (c : Cache) (es : List DirEntry) (c' : Cache),
      walkChildren s w cs c = (.ok es, c') → listingMatches s w cs es := by
  intro cs
  induction cs with
  | nil =>
    intro c es c' h
    simp only [walkChildren, Prod.mk.injEq, Except.ok.injEq] at h
    simp only [listingMatches]
    exact h.1.symm
  | cons child rest ih =>
    intro c es c' h
    simp only [walkChildren] at h
    cases hfs : w.fs child with
    | noEnt => rw [hfs] at h; simp at h
    | ioFail => rw [hfs] at h; simp at h
    | ok info =>
      simp only [hfs] at h
      by_cases hskip : (!info.isDir && !info.isRegular) = true
      · rw [if_pos hskip] at h
        simp only [Bool.and_eq_true, Bool.not_eq_true'] at hskip
        have hel : eligible w child = false := by
          simp [eligible, hfs, hskip.1, hskip.2]
        simp only [listingMatches, hel]
        exact ih c es c' h
      · rw [if_neg hskip] at h
        have hel : eligible w child = true := by
          simp only [eligible, hfs]
          revert hskip
          cases info.isDir <;> cases info.isRegular <;> simp
        rcases hent : entry { s with dirEntries := c } w child with ⟨r1, c1⟩
        simp only [hent] at h
        cases r1 with
        | error e1 => simp at h
        | ok e =>
          cases hpp : parsePath (upspinPathFromLocal s child) with
          | error e2 => simp only [hpp] at h; simp at h
          | ok p =>
            simp only [hpp] at h
            cases hcan : can s w .read p with
            | error e3 => simp only [hcan] at h; simp at h
            | ok b =>
              simp only [hcan] at h
              cases b with
              | true =>
                rcases hw : walkChildren s w rest c1 with ⟨r2, c2⟩
                simp only [hw] at h
                cases r2 with
                | error e4 => simp at h
                | ok es1 =>
                  simp only [Prod.mk.injEq, Except.ok.injEq] at h
                  obtain ⟨hes, _⟩ := h
                  subst hes
                  simp only [listingMatches, hel]
                  refine ⟨e, es1, rfl, ?_, ih c1 es1 c2 hw⟩
                  intro p' hp' hcan'
                  rw [hpp] at hp'
                  cases hp'
                  have hcontra := hcan.symm.trans hcan'
                  simp at hcontra
              | false =>
                rcases hw : walkChildren s w rest
                    (if info.isDir then c1 else cacheAdd c1 child (markIncomplete e)) with ⟨r2, c2⟩
                simp only [hw] at h
                cases r2 with
                | error e4 => simp at h
                | ok es1 =>
                  simp only [Prod.mk.injEq, Except.ok.injEq] at h
                  obtain ⟨hes, _⟩ := h
                  subst hes
                  simp only [listingMatches, hel]
                  refine ⟨markIncomplete e, es1, rfl, ?_, ih _ es1 c2 hw⟩
                  intro p' hp' hcan'
                  simp [markIncomplete]

theorem joinChar_split (c : Char) : ∀ l, joinChar c (splitOnChar c l) = l := by
  intro l
  induction l with
  | nil => rfl
  | cons x xs ih =>
    cases hsp : splitOnChar c xs with
    | nil => exact absurd hsp (splitOnChar_ne_nil c xs)
    | cons g gs =>
      rw [hsp] at ih
      by_cases hx : x = c
      · subst hx
        simp only [splitOnChar, hsp, if_pos rfl]
        cases gs with
        | nil => simp only [joinChar, List.nil_append] at ih ⊢; rw [ih]
        | cons g2 gs2 => simp only [joinChar, List.nil_append] at ih ⊢; rw [ih]
      · simp only [splitOnChar, hsp, if_neg hx]
        cases gs with
        | nil => simp only [joinChar] at ih ⊢; rw [ih]
        | cons g2 gs2 =>
          simp only [joinChar] at ih ⊢
          rw [List.cons_append, ih]

/-! Claim theorems. -/

/-- C1: entry synthesis caches the built entry keyed by local path; for a
regular file with a cached slot, the slot is returned as-is (identical
version and signature bytes) exactly when the fresh modification time equals
the cached version; on a mismatch the stale slot is removed and the entry
rebuilt with the new version and re-cached; and a second synthesis right
after a successful one returns the identical entry. -/
theorem claim_C1 (s : Server) (w : World) (file : String) (info : FileInfo) (e0 : DirEntry)
    (hpre : strHasPrefix s.root file = true)
    (hfs : w.fs file = .ok info)
    (hdir : info.isDir = false) :
    (cacheGet s.dirEntries file = some e0 →
      (e0.time = info.modTime → entry s w file = (.ok e0, s.dirEntries)) ∧
      (e0.time ≠ info.modTime →
        ∀ e c', entry s w file = (.ok e, c') →
          e.time = info.modTime ∧ e ≠ e0 ∧
          c' = cacheAdd (cacheRemove s.dirEntries file) file e)) ∧
    (∀ e c', entry s w file = (.ok e, c') →
      entry { s with dirEntries := c' } w file = (.ok e, c')) := by
  constructor
  · intro hc
    constructor
    · intro ht
      simp [entry, hpre, hfs, hdir, hc, ht]
    · intro hne e c' h
      simp only [entry, hpre, if_true, hfs, hdir, Bool.false_eq_true, if_false, hc,
        if_neg hne] at h
      rcases entryBuildFile_cases s w file info (cacheRemove s.dirEntries file) with
        ⟨err, heq⟩ | ⟨e2, heq, ht2⟩
      · rw [heq] at h; simp at h
      · rw [heq] at h
        simp only [Prod.mk.injEq, Except.ok.injEq] at h
        obtain ⟨he, hc'⟩ := h
        subst he
        refine ⟨ht2, ?_, hc'.symm⟩
        intro heq0
        rw [heq0] at ht2
        exact hne ht2
  · intro e c' h
    have hred : cacheGet c' file = some e ∧ e.time = info.modTime := by
      simp only [entry, hpre, if_true, hfs, hdir, Bool.false_eq_true, if_false] at h
      cases hc0 : cacheGet s.dirEntries file with
      | none =>
        simp only [hc0] at h
        rcases entryBuildFile_cases s w file info s.dirEntries with
          ⟨err, heq⟩ | ⟨e2, heq, ht2⟩
        · rw [heq] at h; simp at h
        · rw [heq] at h
          simp only [Prod.mk.injEq, Except.ok.injEq] at h
          obtain ⟨he, hc'⟩ := h
          subst he
          subst hc'
          exact ⟨cacheGet_add_self _ _ _, ht2⟩
      | some e1 =>
        simp only [hc0] at h
        by_cases ht : e1.time = info.modTime
        · rw [if_pos ht] at h
          simp only [Prod.mk.injEq, Except.ok.injEq] at h
          obtain ⟨he, hc'⟩ := h
          subst he
          subst hc'
          exact ⟨hc0, ht⟩
        · rw [if_neg ht] at h
          rcases entryBuildFile_cases s w file info (cacheRemove s.dirEntries file) with
            ⟨err, heq⟩ | ⟨e2, heq, ht2⟩
          · rw [heq] at h; simp at h
          · rw [heq] at h
            simp only [Prod.mk.injEq, Except.ok.injEq] at h
            obtain ⟨he, hc'⟩ := h
            subst he
            subst hc'
            exact ⟨cacheGet_add_self _ _ _, ht2⟩
    simp [entry, hpre, hfs, hdir, hred.1, hred.2]

/-- C1 witness: on the concrete unchanged file /r/f, the cached entry is
returned as-is. -/
theorem claim_C1_witness :
    entry serverHit worldBasic "/r/f" = (.ok entryHit, serverHit.dirEntries) :=
  (((claim_C1 serverHit worldBasic "/r/f" (regInfo 100 5 0o644) entryHit
    (by decide) (by decide) (by decide)).1 (by decide)).1 (by decide))

/-- C2: access-policy resolution scans prefixes from the full path upward:
if every candidate continues, the result is the empty reference with no
error; the first non-continuing candidate decides the result (nearest
prefix wins); a candidate whose directory stat fails decides with that
error; a candidate directory holding an openable regular Access file
decides with that file's logical path; and a candidate whose Access file is
not a regular file decides with the not-a-regular-file error. -/
theorem claim_C2 (s : Server) (w : World) (parsed : Parsed) :
    ((∀ i, i ≤ parsed.elems.length → waStep s w parsed i = .cont) →
      whichAccess s w parsed = .ok "") ∧
    (∀ j r, j ≤ parsed.elems.length → (∀ i, i < j → waStep s w parsed i = .cont) →
      waStep s w parsed j = .done r → whichAccess s w parsed = r) ∧
    (∀ i, w.fs (waDir s parsed i) = .noEnt →
      waStep s w parsed i = .done (.error (.statNoEnt (waDir s parsed i)))) ∧
    (∀ i fi fi2, w.fs (waDir s parsed i) = .ok fi → fi.isDir = true →
      w.fs (waDir s parsed i ++ "/Access") = .ok fi2 → fi2.isRegular = true →
      w.openOk (waDir s parsed i ++ "/Access") = true →
      waStep s w parsed i = .done (.ok (waLogical parsed i))) ∧
    (∀ i fi fi2, w.fs (waDir s parsed i) = .ok fi → fi.isDir = true →
      w.fs (waDir s parsed i ++ "/Access") = .ok fi2 → fi2.isRegular = false →
      waStep s w parsed i = .done (.error (.notRegular (waLogical parsed i)))) := by
  refine ⟨?_, ?_, ?_, ?_, ?_⟩
  · intro h
    exact waLoop_all_cont s w parsed _ fun i hi =>
      h i (Nat.lt_succ_iff.mp (List.mem_range.mp hi))
  · intro j r hj hcont hstep
    obtain ⟨l2, hl⟩ := range_decomp j (parsed.elems.length + 1) (Nat.lt_succ_of_le hj)
    unfold whichAccess
    rw [hl]
    exact waLoop_first_done s w parsed j r _ l2
      (fun i hi => hcont i (List.mem_range.mp hi)) hstep
  · intro i hfs
    simp [waStep, hfs]
  · intro i fi fi2 hfs hdir hacc hreg hopen
    simp [waStep, hfs, hdir, hacc, hreg, hopen]
  · intro i fi fi2 hfs hdir hacc hreg
    simp [waStep, hfs, hdir, hacc, hreg]

/-- C2 witness: with an Access file directly in the mapped directory of the
full path, resolution returns its logical path at the nearest candidate. -/
theorem claim_C2_witness :
    whichAccess serverBase worldAcc ⟨"u@x", ["a"]⟩ = .ok "u@x/a/Access" :=
  (claim_C2 serverBase worldAcc ⟨"u@x", ["a"]⟩).2.1 0 (.ok "u@x/a/Access")
    (by decide) (fun i hi => absurd hi (Nat.not_lt_zero i)) (by decide)

/-- C3: a non-directory whose permission bits deny other-read is refused by
readFile with a permission error, and consequently Get fails with that
permission error on the segment file even when the access check for the
caller grants the read right. -/
theorem claim_C3 :
    (∀ (s : Server) (w : World) (name : String) (q : Parsed) (info : FileInfo),
      parsePath name = .ok q →
      w.fs (joinRel s.root q.elems) = .ok info →
      info.isDir = false → info.mode &&& 4 = 0 →
      readFile s w name = .error (.permission name)) ∧
    (∀ (s : Server) (w : World) (ref : String) (u : UserCfg) (ref2 off : String)
      (q2 q : Parsed) (info : FileInfo),
      s.user = some u → decodeRef ref = (ref2, off) →
      parsePath (s.userName ++ ref2) = .ok q2 →
      can s w .read q2 = .ok true →
      parsePath (s.userName ++ ref2 ++ "-" ++ off) = .ok q →
      w.fs (joinRel s.root q.elems) = .ok info →
      info.isDir = false → info.mode &&& 4 = 0 →
      storeGet s w ref = .error (.permission (s.userName ++ ref2 ++ "-" ++ off))) := by
  refine ⟨fun s w name q info hq hfs hdir hmode =>
    readFile_not_world_readable s w name q info hq hfs hdir hmode, ?_⟩
  intro s w ref u ref2 off q2 q info hu hdec hq2 hcan hq hfs hdir hmode
  have hrf : readFile s w (s.userName ++ ref2 ++ "-" ++ off) =
      .error (.permission (s.userName ++ ref2 ++ "-" ++ off)) :=
    readFile_not_world_readable s w _ q info hq hfs hdir hmode
  simp only [storeGet, hu, hdec, hq2, hcan, hrf]

/-- C3 witness: the segment file /r/f-0 has mode 600, so Get fails with a
permission error although the policy grants the read right. -/
theorem claim_C3_witness :
    readFile serverDialed worldGet "u@x/f-0" = .error (.permission "u@x/f-0") ∧
    storeGet serverDialed worldGet "/f-0" = .error (.permission ("u@x" ++ "/f" ++ "-" ++ "0")) :=
  ⟨claim_C3.1 serverDialed worldGet "u@x/f-0" ⟨"u@x", ["f-0"]⟩ (regInfo 100 5 0o600)
      (by decide) (by decide) (by decide) (by decide),
    claim_C3.2 serverDialed worldGet "/f-0" uAlice "/f" "0" ⟨"u@x", ["f"]⟩
      ⟨"u@x", ["f-0"]⟩ (regInfo 100 5 0o600)
      rfl (by decide) (by decide) (by decide) (by decide) (by decide) (by decide) (by decide)⟩

/-- C4: a listing by a caller lacking the list right on the directory fails
with the privacy error without examining any child (the result is the same
for every children enumeration, and the cache is untouched); and a
successful listing satisfies the listing specification: exactly the
children that are directories or regular files appear, in order, and a
child on which the caller is denied the read right has its entry marked
incomplete with content reference and signature data suppressed. -/
theorem claim_C4 (s : Server) (w : World) (name : String) :
    (∀ parsed, parsePath name = .ok parsed → can s w .list parsed = .ok false →
      ∀ ch, listDir s { w with children := ch } name =
        (.error (.privAt name), s.dirEntries)) ∧
    (∀ parsed es c', parsePath name = .ok parsed →
      listDir s w name = (.ok es, c') →
      listingMatches s w (w.children (joinRel s.root parsed.elems)) es) := by
  constructor
  · intro parsed hp hcan ch
    simp only [listDir, hp, can_children, hcan]
  · intro parsed es c' hp h
    simp only [listDir, hp] at h
    cases hcan : can s w .list parsed with
    | error e => simp only [hcan] at h; simp at h
    | ok b =>
      simp only [hcan] at h
      cases b with
      | false => simp at h
      | true =>
        cases hfs : w.fs (joinRel s.root parsed.elems) with
        | noEnt => simp only [hfs] at h; simp at h
        | ioFail => simp only [hfs] at h; simp at h
        | ok info =>
          simp only [hfs] at h
          exact walkChildren_matches s w _ _ es c' h

/-- C4 witness: carol, who lacks the list right on u@x/d, gets the privacy
error with no child examined. -/
theorem claim_C4_witness :
    listDir serverCarol { worldList with children := fun _ => [] } "u@x/d" =
      (.error (.privAt "u@x/d"), serverCarol.dirEntries) :=
  (claim_C4 serverCarol worldList "u@x/d").1 ⟨"u@x", ["d"]⟩ (by decide) (by decide)
    (fun _ => [])

/-- C5 (bug exhibit): alice, denied the read right on u@x/d/f, lists u@x/d;
MarkIncomplete mutates the entry object the cache slot for /r/d/f aliases,
so bob's subsequent lookup of the unchanged file returns the gutted
incomplete entry from the warmed cache, whereas bob's lookup against a cold
cache returns the complete signed entry.  The cached entry is therefore
mutated after it was built, against the claimed invariant. -/
theorem claim_C5_bug :
    (listDir serverAlice worldList "u@x/d").1 = .ok [entryFIncomplete] ∧
    (dirLookup { serverBob with dirEntries := (listDir serverAlice worldList "u@x/d").2 }
        worldList "u@x/d/f").1 = .ok entryFIncomplete ∧
    (dirLookup serverBob worldList "u@x/d/f").1 = .ok entryFComplete := by
  refine ⟨?_, ?_, ?_⟩ <;> decide

/-- C6 (amended): for a directory, entry synthesis skips the cache and
builds a bare Entry of directory kind with no content reference — but it
returns before the signing step, so the directory entry's signature buffer
is left empty, not populated. -/
theorem claim_C6_amended (s : Server) (w : World) (file : String) (info : FileInfo)
    (hpre : strHasPrefix s.root file = true)
    (hfs : w.fs file = .ok info) (hdir : info.isDir = true) :
    entry s w file =
      (.ok { name := upspinPathFromLocal s file
             signedName := upspinPathFromLocal s file
             packing := plainPack
             time := info.modTime
             attr := attrDirectory
             sequence := 0
             writer := s.userName
             blocks := []
             packdata := [] }, s.dirEntries) := by
  simp [entry, hpre, hfs, hdir]

/-- C6 witness: the concrete directory /r/d synthesizes to the bare unsigned
directory entry, with the cache untouched. -/
theorem claim_C6_witness :
    entry serverHit worldBasic "/r/d" = (.ok dirEntryOfD, serverHit.dirEntries) := by
  have h := claim_C6_amended serverHit worldBasic "/r/d" dirInfo (by decide) (by decide)
    (by decide)
  rw [h]
  decide

/-- C6 counterexample: the synthesized entry of the directory /r/d has an
empty signature buffer, refuting the claim that directory entries go
through the same signing step as files and have their signature buffer
populated. -/
theorem claim_C6_cex :
    (entry serverHit worldBasic "/r/d").1 = .ok dirEntryOfD ∧
    dirEntryOfD.packdata = [] := by
  decide

/-- C7: composite content references round-trip — decoding the relative
path (which may itself contain hyphens) joined to a decimal offset with a
hyphen recovers both exactly — and Get then reads the local file segment
named by the logical path with the offset suffix concatenated back. -/
theorem claim_C7 :
    (∀ p d : String, (∀ ch ∈ d.data, ch.isDigit = true) →
      decodeRef (p ++ "-" ++ d) = (p, d)) ∧
    (∀ (s : Server) (w : World) (ref : String) (u : UserCfg) (p d : String)
      (q : Parsed) (data : List Nat),
      s.user = some u → decodeRef ref = (p, d) →
      parsePath (s.userName ++ p) = .ok q →
      can s w .read q = .ok true →
      readFile s w (s.userName ++ p ++ "-" ++ d) = .ok data →
      storeGet s w ref = .ok (data, { reference := p, volatile := false })) := by
  constructor
  · intro p d hd
    have hnm : '-' ∉ d.data := fun hmem => absurd (hd '-' hmem) (by decide)
    have hdata : (p ++ "-" ++ d).data = p.data ++ '-' :: d.data := by
      obtain ⟨pl⟩ := p
      obtain ⟨dl⟩ := d
      show (pl ++ ['-']) ++ dl = pl ++ '-' :: dl
      rw [List.append_assoc]
      rfl
    simp only [decodeRef, splitStr]
    rw [hdata, splitOnChar_append '-' d.data hnm p.data, List.map_append]
    simp only [List.map]
    rw [List.dropLast_concat, List.getLastD_concat]
    rw [strJoin_map_mk '-' "-" rfl, joinChar_split]
  · intro s w ref u p d q data hu hdec hq hcan hread
    simp only [storeGet, hu, hdec, hq, hcan, hread]

/-- C7 witness: the reference of relative path /a-b (hyphen inside) and
offset 7 decodes back exactly, and Get reads the segment /r/a-b-7. -/
theorem claim_C7_witness :
    decodeRef ("/a-b" ++ "-" ++ "7") = ("/a-b", "7") ∧
    storeGet serverDialed worldRef "/a-b-7" =
      .ok ([104, 105, 33], { reference := "/a-b", volatile := false }) :=
  ⟨claim_C7.1 "/a-b" "7" (by decide),
    claim_C7.2 serverDialed worldRef "/a-b-7" uAlice "/a-b" "7" ⟨"u@x", ["a-b"]⟩
      [104, 105, 33] rfl (by decide) (by decide) (by decide) (by decide)⟩

/-- C8: the mutating operations Put and Delete of both the store server and
the directory server unconditionally fail with the read-only error for
every input; they touch no server state. -/
theorem claim_C8 :
    (∀ (s : Server) (ct : List Nat), storePut s ct = .error .readOnly) ∧
    (∀ (s : Server) (r : String), storeDelete s r = .error .readOnly) ∧
    (∀ (s : Server) (e : DirEntry), dirPut s e = .error .readOnly) ∧
    (∀ (s : Server) (p : String), dirDelete s p = .error .readOnly) :=
  ⟨fun _ _ => rfl, fun _ _ => rfl, fun _ _ => rfl, fun _ _ => rfl⟩

/-- C9 (amended): when entry synthesis fails after the initial stat, the
whole call fails with that error and no entry is added to the cache — every
slot is either unchanged or empty — but a version-stale slot has already
been removed before the failing step, so that slot may be left empty rather
than exactly as it was. -/
theorem claim_C9_amended (s : Server) (w : World) (file : String) (err : Err)
    (h : (entry s w file).1 = .error err) :
    ((entry s w file).2 = s.dirEntries ∨
      (entry s w file).2 = cacheRemove s.dirEntries file) ∧
    (∀ k, cacheGet (entry s w file).2 k = cacheGet s.dirEntries k ∨
      cacheGet (entry s w file).2 k = none) := by
  by_cases hpre : strHasPrefix s.root file = true
  · cases hfs : w.fs file with
    | noEnt => simp [entry, hpre, hfs]
    | ioFail => simp [entry, hpre, hfs]
    | ok info =>
      cases hdir : info.isDir with
      | true => simp [entry, hpre, hfs, hdir] at h
      | false =>
        cases hc : cacheGet s.dirEntries file with
        | none =>
          rcases entryBuildFile_cases s w file info s.dirEntries with
            ⟨e1, heq⟩ | ⟨e1, heq, _⟩
          · simp [entry, hpre, hfs, hdir, hc, heq]
          · simp [entry, hpre, hfs, hdir, hc, heq] at h
        | some e0 =>
          by_cases ht : e0.time = info.modTime
          · simp [entry, hpre, hfs, hdir, hc, ht] at h
          · rcases entryBuildFile_cases s w file info (cacheRemove s.dirEntries file) with
              ⟨e1, heq⟩ | ⟨e1, heq, _⟩
            · simp only [entry, hpre, if_true, hfs, hdir, Bool.false_eq_true, if_false,
                hc, if_neg ht, heq]
              refine ⟨Or.inr trivial, fun k => ?_⟩
              rw [cacheGet_remove]
              by_cases hk : k = file
              · exact Or.inr (by simp [hk])
              · exact Or.inl (by simp [hk])
            · simp [entry, hpre, hfs, hdir, hc, ht, heq] at h
  · have hpre2 : strHasPrefix s.root file = false := by simpa using hpre
    simp [entry, hpre2]

/-- C9 witness: on the concrete stale slot with a failing signer, the final
cache is the original with the slot removed, and the slot itself reads
empty afterwards. -/
theorem claim_C9_witness :
    ((entry serverStale worldBasic "/r/f").2 = serverStale.dirEntries ∨
      (entry serverStale worldBasic "/r/f").2 = cacheRemove serverStale.dirEntries "/r/f") ∧
    (cacheGet (entry serverStale worldBasic "/r/f").2 "/r/f" =
        cacheGet serverStale.dirEntries "/r/f" ∨
      cacheGet (entry serverStale worldBasic "/r/f").2 "/r/f" = none) :=
  ⟨(claim_C9_amended serverStale worldBasic "/r/f" .signFail (by decide)).1,
    (claim_C9_amended serverStale worldBasic "/r/f" .signFail (by decide)).2 "/r/f"⟩

/-- C9 counterexample: with a stale cached slot for /r/f and a signer that
fails, the call fails but the slot — previously holding the stale entry —
is left empty, not exactly as it was, refuting the unamended claim. -/
theorem claim_C9_cex :
    (entry serverStale worldBasic "/r/f").1 = .error .signFail ∧
    cacheGet serverStale.dirEntries "/r/f" = some entryStale ∧
    cacheGet (entry serverStale worldBasic "/r/f").2 "/r/f" = none := by
  decide

/-- C10: entry returns the internal not-in-root error for every argument
not beginning with the configured root, and since WhichAccess hands entry
the logical policy path produced by whichAccess (or the empty string),
WhichAccess can only succeed when that logical path string happens to begin
with the local root. -/
theorem claim_C10 (s : Server) (w : World) :
    (∀ file, strHasPrefix s.root file = false →
      entry s w file = (.error .notInRoot, s.dirEntries)) ∧
    (∀ pathName e c', dirWhichAccess s w pathName = (.ok e, c') →
      ∃ parsed afn, parsePath pathName = .ok parsed ∧
        whichAccess s w parsed = .ok afn ∧ strHasPrefix s.root afn = true) := by
  constructor
  · intro file hpre
    simp [entry, hpre]
  · intro pathName e c' h
    cases hp : parsePath pathName with
    | error e1 => simp only [dirWhichAccess, hp] at h; simp at h
    | ok parsed =>
      simp only [dirWhichAccess, hp] at h
      by_cases huser : parsed.user ≠ s.userName
      · rw [if_pos huser] at h; simp at h
      · rw [if_neg huser] at h
        cases hcan : can s w .anyRight parsed with
        | error e2 => simp only [hcan] at h; simp at h
        | ok b =>
          simp only [hcan] at h
          cases b with
          | false => simp at h
          | true =>
            cases hwa : whichAccess s w parsed with
            | error e3 => simp only [hwa] at h; simp at h
            | ok afn =>
              simp only [hwa] at h
              by_cases hpre : strHasPrefix s.root afn = true
              · exact ⟨parsed, afn, rfl, hwa, hpre⟩
              · have hfalse : strHasPrefix s.root afn = false := by simpa using hpre
                simp [entry, hfalse] at h

/-- C10 witness: an argument outside the root yields the internal
not-in-root error, cache untouched. -/
theorem claim_C10_witness :
    entry serverHit worldBasic "xyz" = (.error .notInRoot, serverHit.dirEntries) :=
  (claim_C10 serverHit worldBasic).1 "xyz" (by decide)

end Filesystem
